import Mathlib

/-!
A verification development for the PRADA MIG-to-DRAM compiler
(`src/rs/src/prada/`).  The Rust sources are shallowly embedded:

* `architecture.rs` : address constants and pure address arithmetic,
  machine integers become `Nat` (with an explicit `% 2 ^ 64` where a
  `u64` shift could overflow);
* `extraction.rs`   : the e-graph cost function;
* `compilation.rs`  : the row allocator / compiler.  Rust `HashMap`s
  become association lists with overwrite-on-insert, `FxHashSet`s become
  duplicate-free lists (insertion order standing in for the hash order),
  `Vec` stacks become lists whose head is the top of the stack, and
  every `panic!` / `.expect(..)` becomes an `Except.error` carrying the
  panic message.  The unbounded `while` loop takes explicit fuel.
-/

/-! ## Architecture model (`architecture.rs`) -/

def NR_SUBARRAYS : Nat := 2 ^ 7

def ROWS_PER_SUBARRAY : Nat := 2 ^ 9

def SUBARRAY_ID_BITMASK : Nat := 0b1111111000000000

def ROW_ID_BITMASK : Nat := 0b0000000111111111

def U64_SIZE : Nat := 2 ^ 64

def USIZE_MAX : Nat := 2 ^ 64 - 1

/-- `subarrayid_to_subarray_address`: `subarray_id << ROWS_PER_SUBARRAY.ilog2()`
on `u64` (the shift wraps modulo `2 ^ 64`). -/
def subarrayid_to_subarray_address (subarray_id : Nat) : Nat :=
  (subarray_id <<< Nat.log2 ROWS_PER_SUBARRAY) % U64_SIZE

/-- `RowAddress::get_subarray_id`: `(self.0 & SUBARRAY_ID_BITMASK) >> ROWS_PER_SUBARRAY.ilog2()`. -/
def get_subarray_id (a : Nat) : Nat :=
  (a &&& SUBARRAY_ID_BITMASK) >>> Nat.log2 ROWS_PER_SUBARRAY

/-- `RowAddress::local_rowaddress_to_subarray_id`. -/
def local_rowaddress_to_subarray_id (a : Nat) (subarray_id : Nat) : Nat :=
  (a &&& ROW_ID_BITMASK) ||| subarrayid_to_subarray_address subarray_id

/-- The local row printed by the `Display` impl of `RowAddress`: `self.0 & ROW_ID_BITMASK`. -/
def displayed_local_row (a : Nat) : Nat :=
  a &&& ROW_ID_BITMASK

/-- The packed address of the spec: `(subarrayId << log2(R)) | localRow`,
built from the address arithmetic of `architecture.rs`. -/
def packAddress (sub localRow : Nat) : Nat :=
  subarrayid_to_subarray_address sub ||| localRow

structure PRADAArchitecture where
  nr_subarrays : Nat
  rows_per_subarray : Nat
deriving DecidableEq, Repr

def ARCHITECTURE : PRADAArchitecture :=
  { nr_subarrays := NR_SUBARRAYS, rows_per_subarray := ROWS_PER_SUBARRAY }

/-! ## Cost model (`extraction.rs`) -/

structure CompilingCost where
  runtime : Nat
  energy_consumption : Nat
deriving DecidableEq, Repr

instance : Add CompilingCost :=
  ⟨fun a b => ⟨a.runtime + b.runtime, a.energy_consumption + b.energy_consumption⟩⟩

/-- The `MigLanguage` e-node type of the extractor: children are e-class ids. -/
inductive MigLanguage where
  | fls : MigLanguage
  | input (k : Nat) : MigLanguage
  | not (c : Nat) : MigLanguage
  | maj (a b c : Nat) : MigLanguage
deriving DecidableEq, Repr

def MigLanguage.children : MigLanguage → List Nat
  | .fls => []
  | .input _ => []
  | .not c => [c]
  | .maj a b c => [a, b, c]

/-- The per-node operation cost of `CompilingCostFunction::cost`
(`CompilingCost::leaf` returns `(0, 0)` for `False` and `Input`). -/
def opCost : MigLanguage → CompilingCost
  | .fls => ⟨0, 0⟩
  | .input _ => ⟨0, 0⟩
  | .not _ => ⟨35, 100⟩
  | .maj _ _ _ => ⟨49, 150⟩

/-- `CompilingCostFunction::cost`: `None` when the e-node lists its own
e-class among its children, otherwise the fold of the child costs over
the operation cost (`enode.fold(op_cost, |sum, id| sum + costs(id))`). -/
def costFunction (costs : Nat → CompilingCost) (eclassId : Nat)
    (enode : MigLanguage) : Option CompilingCost :=
  if enode.children.contains eclassId then none
  else some (enode.children.foldl (fun s i => s + costs i) (opCost enode))

/-! ## The extracted network interface (`eggmock`, external collaborator) -/

structure Signal where
  node_id : Nat
  inverted : Bool
deriving DecidableEq, Repr

def Signal.invert (s : Signal) : Signal :=
  ⟨s.node_id, !s.inverted⟩

inductive Mig where
  | fls : Mig
  | input (k : Nat) : Mig
  | maj (a b c : Signal) : Mig
deriving DecidableEq, Repr

def Mig.inputs : Mig → List Signal
  | .fls => []
  | .input _ => []
  | .maj a b c => [a, b, c]

def Mig.is_leaf : Mig → Bool
  | .maj _ _ _ => false
  | _ => true

/-- The `NetworkWithBackwardEdges` interface consumed by `compile`:
leaves, node table, consumers (backward edges) and the ordered output
signals. -/
structure Network where
  leafs : List Nat
  node : Nat → Mig
  nodeOutputs : Nat → List Nat
  outputs : List Signal

/-! ## Program model.

Modelled from the spec: the `Instruction` enum with constructors
`AAPRowCopy`, `AAPTRA` and `N` used by `compilation.rs` is not among the
provided sources (the provided `program.rs` defines an older, different
instruction set); constructor names and arities follow the spec's
instruction table and the construction sites in `compilation.rs`. -/

inductive Instruction where
  | AAPRowCopy (src dst : Nat) : Instruction
  | AAPTRA (a b c : Nat) : Instruction
  | N (r : Nat) : Instruction
deriving DecidableEq, Repr

/-- The per-instruction cost table used at the end of `compile`. -/
def instructionCost : Instruction → CompilingCost
  | .N _ => ⟨35, 100⟩
  | .AAPTRA _ _ _ => ⟨49, 150⟩
  | .AAPRowCopy _ _ => ⟨100, 50⟩

/-- `Sum for CompilingCost`: fold from `(0, 0)` adding componentwise. -/
def programCost (l : List Instruction) : CompilingCost :=
  l.foldl (fun acc i => acc + instructionCost i) ⟨0, 0⟩

structure Program where
  architecture : PRADAArchitecture
  instructions : List Instruction
  runtime_estimate : Nat
  energy_consumption_estimate : Nat
deriving DecidableEq, Repr

/-! ## Map and set helpers.

`HashMap` becomes an association list whose insert overwrites (so its
length is the number of keys); `FxHashSet` becomes a duplicate-free
list, insertion order standing in for iteration order. -/

def alLookup {α β : Type} [DecidableEq α] (m : List (α × β)) (k : α) : Option β :=
  (m.find? (fun p => p.1 == k)).map (fun p => p.2)

def alInsert {α β : Type} [DecidableEq α] (m : List (α × β)) (k : α) (v : β) :
    List (α × β) :=
  (k, v) :: m.filter (fun p => p.1 != k)

def alErase {α β : Type} [DecidableEq α] (m : List (α × β)) (k : α) : List (α × β) :=
  m.filter (fun p => p.1 != k)

def listRemove {α : Type} [DecidableEq α] (l : List α) (x : α) : List α :=
  l.filter (fun y => y != x)

def listInsert {α : Type} [DecidableEq α] (l : List α) (x : α) : List α :=
  if l.contains x then l else l ++ [x]

/-! ## Compiler state (`compilation.rs`) -/

structure RowState where
  is_compute_row : Bool
  live_value : Option Signal
  constant : Option Nat
deriving DecidableEq, Repr

structure CompilationState where
  dramState : List (Nat × RowState)
  valueStates : List (Signal × Nat)
  freeRows : List Nat
  program : List Instruction
  candidates : List (Nat × Mig)
  outputs : List Nat
  leftoverUseCount : List (Nat × Nat)
deriving DecidableEq, Repr

instance : Inhabited CompilationState :=
  ⟨⟨[], [], [], [], [], [], []⟩⟩

/-- `CompilationState::leftover_use_count`: lazy memoisation of
`node_outputs(id).count() + outputs.contains(id)`, read against the
current (mutable) output set. -/
def lucGet (net : Network) (memo : List (Nat × Nat)) (outs : List Nat) (id : Nat) :
    Nat × List (Nat × Nat) :=
  match alLookup memo id with
  | some v => (v, memo)
  | none =>
    let v := (net.nodeOutputs id).length + (if outs.contains id then 1 else 0)
    (v, alInsert memo id v)

/-- One step of the input-preservation loop in `CompilationState::compute`:
if the producer of `g` still has more than one leftover use, pop a fresh
free row and emit `AAPRowCopy(row(g), fresh)` (nothing else is updated). -/
def preserveInput (net : Network) (s : CompilationState) (g : Signal) :
    Except String CompilationState :=
  let p := lucGet net s.leftoverUseCount s.outputs g.node_id
  let s1 := { s with leftoverUseCount := p.2 }
  if p.1 > 1 then
    match s1.freeRows with
    | [] => .error "OOM"
    | nextFreeRow :: rest =>
      match alLookup s1.valueStates g with
      | none => .error "Input Signal not present"
      | some rowAddr =>
        .ok { s1 with freeRows := rest,
                      program := s1.program ++ [Instruction.AAPRowCopy rowAddr nextFreeRow] }
  else .ok s1

/-- The candidate-expansion step at the end of `CompilationState::compute`. -/
def expandStep (net : Network) (st : CompilationState) (parentId : Nat) :
    CompilationState :=
  let parentNode := net.node parentId
  if parentNode.inputs.all (fun g => (alLookup st.valueStates g).isSome) then
    { st with candidates := listInsert st.candidates (parentId, parentNode) }
  else st

/-- `CompilationState::compute`.  Note that the `outAddress` argument is
accepted but never read, exactly as in the source. -/
def CompilationState.compute (net : Network) (s : CompilationState) (id : Nat)
    (node : Mig) (outAddress : Option Nat) : Except String CompilationState :=
  if s.candidates.contains (id, node) = false then .error "not a candidate" else
  let s0 := { s with candidates := listRemove s.candidates (id, node) }
  match node with
  | .fls => .error "can only compute majs"
  | .input _ => .error "can only compute majs"
  | .maj g0 g1 g2 =>
    match alLookup s0.valueStates g0, alLookup s0.valueStates g1,
          alLookup s0.valueStates g2 with
    | some r0, some r1, some r2 =>
      match preserveInput net s0 g0 with
      | .error e => .error e
      | .ok s1 =>
        match preserveInput net s1 g1 with
        | .error e => .error e
        | .ok s2 =>
          match preserveInput net s2 g2 with
          | .error e => .error e
          | .ok s3 =>
            let s4 := { s3 with
              program := s3.program ++ [Instruction.AAPTRA r0 r1 r2],
              valueStates := alInsert s3.valueStates ⟨id, false⟩ r0,
              dramState :=
                alErase (alErase
                  (alInsert s3.dramState r0 ⟨false, some ⟨id, false⟩, none⟩) r1) r2,
              freeRows := r2 :: r1 :: s3.freeRows }
            .ok ((net.nodeOutputs id).foldl (expandStep net) s4)
    | _, _, _ => .error "Input Signal not present"

/-- The backup-and-negate step for an inverted primary output
(`compile`, lines 82..91): pop a backup row, emit
`AAPRowCopy(orig, backup); N(backup)`, remap the inverted signal onto the
original row and update `dramState` for both rows. -/
def outputInvertStep (s : CompilationState) (sig : Signal) :
    Except String CompilationState :=
  match s.freeRows with
  | [] => .error "No empty rows anymore"
  | backupRow :: fr =>
    match alLookup s.valueStates sig.invert with
    | none => .error "Non-inverted version of signal isnt present too"
    | some origRow =>
      .ok { s with
        freeRows := fr,
        program := s.program ++
          [Instruction.AAPRowCopy origRow backupRow, Instruction.N backupRow],
        valueStates := alInsert s.valueStates sig origRow,
        dramState :=
          alInsert (alInsert s.dramState origRow ⟨false, some sig.invert, none⟩)
            backupRow ⟨false, some sig, none⟩ }

/-- The output-materialisation loop of `compile` (lines 77..98): iterate
over the enumerated output signals of the network. -/
def outputsPass (net : Network) (id : Nat) (node : Mig) :
    List (Nat × Signal) → CompilationState → Except String CompilationState
  | [], s => .ok s
  | (k, sig) :: rest, s =>
    if sig.node_id ≠ id then outputsPass net id node rest s
    else if sig.inverted then
      match outputInvertStep s sig with
      | .error e => .error e
      | .ok s2 =>
        match alLookup s2.valueStates sig with
        | none => .error "Signal is not computed"
        | some _ =>
          match CompilationState.compute net s2 id node none with
          | .error e => .error e
          | .ok s3 => outputsPass net id node rest s3
    else
      match CompilationState.compute net s id node (some k) with
      | .error e => .error e
      | .ok s3 => outputsPass net id node rest s3

/-- One step of the row-retirement loop in `compile` (lines 104..110). -/
def retireStep (st : CompilationState) (g : Signal) : CompilationState :=
  match alLookup st.valueStates g with
  | some r =>
    { st with valueStates := alErase st.valueStates g,
              dramState := alErase st.dramState r,
              freeRows := r :: st.freeRows }
  | none => { st with valueStates := alErase st.valueStates g }

def retireInputs (net : Network) (id : Nat) (s : CompilationState) :
    CompilationState :=
  (net.node id).inputs.foldl retireStep s

/-- The candidate-selection key of the main loop:
`(not_present, fanout, not-an-output)`, compared lexicographically. -/
def candKey (net : Network) (s : CompilationState) (c : Nat × Mig) :
    Nat × Nat × Bool :=
  let notPresent :=
    (c.2.inputs.map (fun g => if (alLookup s.valueStates g).isSome then 0 else 1)).foldl
      (· + ·) 0
  let fanout := (net.nodeOutputs c.1).length
  let isOut := net.outputs.any (fun g => g.node_id == c.1)
  (notPresent, fanout, !isOut)

def keyLt (a b : Nat × Nat × Bool) : Bool :=
  decide (a.1 < b.1) ||
    (a.1 == b.1 && (decide (a.2.1 < b.2.1) ||
      (a.2.1 == b.2.1 && (!a.2.2 && b.2.2))))

/-- `min_by_key` over the candidate set (`none` iff the set is empty;
of equally minimal candidates the first in iteration order is kept). -/
def selectMin (net : Network) (s : CompilationState) : Option (Nat × Mig) :=
  match s.candidates with
  | [] => none
  | c :: rest =>
    some (rest.foldl
      (fun best x => if keyLt (candKey net s x) (candKey net s best) then x else best) c)

/-- The body of one main-loop iteration of `compile` (lines 76..114). -/
def loopIter (net : Network) (s : CompilationState) (id : Nat) (node : Mig) :
    Except String CompilationState :=
  if s.outputs.contains id then
    match outputsPass net id node net.outputs.enum s with
    | .error e => .error e
    | .ok s1 =>
      let s2 := { s1 with outputs := listRemove s1.outputs id }
      let p := lucGet net s2.leftoverUseCount s2.outputs id
      let s3 := { s2 with leftoverUseCount := p.2 }
      if p.1 == 1 then .ok (retireInputs net id s3) else .ok s3
  else CompilationState.compute net s id node none

/-- The main `while !candidates.is_empty()` loop, with explicit fuel. -/
def runLoop (net : Network) : Nat → CompilationState → Except String CompilationState
  | 0, _ => .error "fuel exhausted"
  | fuel + 1, s =>
    match selectMin net s with
    | none => .ok s
    | some (id, node) =>
      match loopIter net s id node with
      | .error e => .error e
      | .ok s1 => runLoop net fuel s1

/-- The candidate initialisation of `CompilationState::new`: every
consumer of a leaf all of whose inputs are leaves. -/
def initCandidates (net : Network) : List (Nat × Mig) :=
  net.leafs.foldl
    (fun cs leaf =>
      (net.nodeOutputs leaf).foldl
        (fun cs2 candidateId =>
          let candidate := net.node candidateId
          if candidate.inputs.all (fun g => (net.node g.node_id).is_leaf) then
            listInsert cs2 (candidateId, candidate)
          else cs2)
        cs)
    []

/-- The leaf-placement loop of `CompilationState::get_init_states`.
For every leaf a row is popped first; an `Input` leaf takes it and one
more row, a `False` leaf drops it and reuses the two constant rows. -/
def initLeafs (net : Network) (rowForFalse rowForTrue : Nat) :
    List Nat → List (Nat × RowState) → List (Signal × Nat) → List Nat →
    Except String (List (Nat × RowState) × List (Signal × Nat) × List Nat)
  | [], dram, vs, free => .ok (dram, vs, free)
  | id :: rest, dram, vs, free =>
    match free with
    | [] => .error "No more free rows"
    | nextRow :: free1 =>
      match net.node id with
      | .input _ =>
        let vs1 := alInsert vs ⟨id, false⟩ nextRow
        let dram1 := alInsert dram nextRow ⟨false, some ⟨id, false⟩, none⟩
        match free1 with
        | [] => .error "No more free rows"
        | nextRow2 :: free2 =>
          let vs2 := alInsert vs1 ⟨id, true⟩ nextRow2
          let dram2 := alInsert dram1 nextRow2 ⟨false, some ⟨id, true⟩, none⟩
          initLeafs net rowForFalse rowForTrue rest dram2 vs2 free2
      | .fls =>
        let vs1 := alInsert vs ⟨id, false⟩ rowForFalse
        let dram1 := alInsert dram rowForFalse ⟨false, some ⟨id, false⟩, some 0⟩
        let vs2 := alInsert vs1 ⟨id, true⟩ rowForTrue
        let dram2 := alInsert dram1 rowForTrue ⟨false, some ⟨id, true⟩, some USIZE_MAX⟩
        initLeafs net rowForFalse rowForTrue rest dram2 vs2 free1
      | .maj _ _ _ => .error "leaf node should be either an input or a constant"

/-- `CompilationState::get_init_states`: seed the two constant rows,
then place the leaves. -/
def getInitStates (net : Network) (freeRowsPerSubarray : List Nat) :
    Except String (List (Nat × RowState) × List (Signal × Nat) × List Nat) :=
  match freeRowsPerSubarray with
  | [] => .error "No more free rows"
  | rowForFalse :: rest1 =>
    let dram1 := alInsert ([] : List (Nat × RowState)) rowForFalse ⟨false, none, some 0⟩
    match rest1 with
    | [] => .error "No more free rows"
    | rowForTrue :: rest2 =>
      let dram2 := alInsert dram1 rowForTrue ⟨false, none, some USIZE_MAX⟩
      initLeafs net rowForFalse rowForTrue net.leafs dram2 [] rest2

/-- `CompilationState::new`: the initial free pool is `0..ROWS_PER_SUBARRAY`
as a `Vec` popped from its end (so the reversed range, head = top). -/
def initState (net : Network) : Except String CompilationState :=
  match getInitStates net (List.range ROWS_PER_SUBARRAY).reverse with
  | .error e => .error e
  | .ok (dram, vs, free) =>
    .ok { dramState := dram,
          valueStates := vs,
          freeRows := free,
          program := [],
          candidates := initCandidates net,
          outputs := (net.outputs.map Signal.node_id).foldl listInsert [],
          leftoverUseCount := [] }

/-- `compile` up to (and including) the main loop, returning the final
compilation state. -/
def compileSt (net : Network) (fuel : Nat) : Except String CompilationState :=
  match initState net with
  | .error e => .error e
  | .ok s => runLoop net fuel s

def mkProgram (s : CompilationState) : Program :=
  let c := programCost s.program
  { architecture := ARCHITECTURE,
    instructions := s.program,
    runtime_estimate := c.runtime,
    energy_consumption_estimate := c.energy_consumption }

/-- The observable outcome of one `compile` call.  The Rust function has
return type `Result<Program, &'static str>`; `err` is that `Result`'s
error channel (the source contains no `Err(..)` construction site) and
`panicked` models an aborting `panic! / expect` with its message. -/
inductive CompileOutcome where
  | ok (p : Program) : CompileOutcome
  | err (e : String) : CompileOutcome
  | panicked (msg : String) : CompileOutcome
deriving DecidableEq, Repr

def CompileOutcome.isErrReturn : CompileOutcome → Bool
  | .err _ => true
  | _ => false

/-- The `compile` entry point of `compilation.rs`. -/
def compile (net : Network) (fuel : Nat) : CompileOutcome :=
  match compileSt net fuel with
  | .ok s => .ok (mkProgram s)
  | .error msg => .panicked msg

/-- Helper for stating concrete evaluations: the final compilation state
when compilation succeeds. -/
def finalStateOr (net : Network) (fuel : Nat) : CompilationState :=
  match compileSt net fuel with
  | .ok s => s
  | .error _ => default

/-- Helper for stating concrete evaluations: whether a compilation run
reaches the end of `compile` (as opposed to aborting). -/
def compileOk (net : Network) (fuel : Nat) : Bool :=
  match compileSt net fuel with
  | .ok _ => true
  | .error _ => false

/-! ## Concrete networks used as test inputs -/

/-- Inputs `1, 2, 3`; node `4 = Maj(1, 2, 3)`; single output `Signal(4, false)`
(scenario 3 of the spec). -/
def singleMajNet : Network :=
  { leafs := [1, 2, 3],
    node := fun i =>
      if i == 1 then .input 1 else if i == 2 then .input 2
      else if i == 3 then .input 3
      else if i == 4 then .maj ⟨1, false⟩ ⟨2, false⟩ ⟨3, false⟩
      else .fls,
    nodeOutputs := fun i => if i == 1 || i == 2 || i == 3 then [4] else [],
    outputs := [⟨4, false⟩] }

/-- Inputs `1, 2, 3`; node `4 = Maj(1, 2, 3)`; node `5 = Maj(1, 2, 4)`;
single output `Signal(5, false)`.  Inputs `1` and `2` each have two
consumers, so the input-preservation path of `compute` runs. -/
def sharedInputNet : Network :=
  { leafs := [1, 2, 3],
    node := fun i =>
      if i == 1 then .input 1 else if i == 2 then .input 2
      else if i == 3 then .input 3
      else if i == 4 then .maj ⟨1, false⟩ ⟨2, false⟩ ⟨3, false⟩
      else if i == 5 then .maj ⟨1, false⟩ ⟨2, false⟩ ⟨4, false⟩
      else .fls,
    nodeOutputs := fun i =>
      if i == 1 || i == 2 then [4, 5] else if i == 3 then [4]
      else if i == 4 then [5] else [],
    outputs := [⟨5, false⟩] }

/-- 256 primary inputs: placing them needs `2 + 2 * 256` rows, more than the
512 rows of the home subarray, so initialisation exhausts the free pool. -/
def manyInputsNet : Network :=
  { leafs := List.range' 1 256,
    node := fun i => .input i,
    nodeOutputs := fun _ => [],
    outputs := [⟨1, false⟩] }

/-! ## Row-bound invariant used for the TRA-locality proof -/

/-- All row operands of an instruction lie below `ROWS_PER_SUBARRAY`. -/
def instructionRowsBound : Instruction → Prop
  | .AAPRowCopy a b => a < ROWS_PER_SUBARRAY ∧ b < ROWS_PER_SUBARRAY
  | .AAPTRA a b c => a < ROWS_PER_SUBARRAY ∧ b < ROWS_PER_SUBARRAY ∧ c < ROWS_PER_SUBARRAY
  | .N r => r < ROWS_PER_SUBARRAY

/-- Every row address recorded in the free pool, in `valueStates` or in an
emitted instruction lies below `ROWS_PER_SUBARRAY` (hence in subarray 0). -/
def rowsBound (s : CompilationState) : Prop :=
  (∀ r ∈ s.freeRows, r < ROWS_PER_SUBARRAY) ∧
  (∀ p ∈ s.valueStates, p.2 < ROWS_PER_SUBARRAY) ∧
  (∀ i ∈ s.program, instructionRowsBound i)

/-! ## Helper lemmas: association lists and list sets -/

theorem alLookup_mem {α β : Type} [DecidableEq α] {m : List (α × β)} {k : α}
    {v : β} (h : alLookup m k = some v) : (k, v) ∈ m := by
  unfold alLookup at h
  cases hf : m.find? (fun p => p.1 == k) with
  | none => rw [hf] at h; simp at h
  | some p =>
    rw [hf] at h
    have hmem := List.mem_of_find?_eq_some hf
    have hp := List.find?_some hf
    obtain ⟨a, b⟩ := p
    simp at hp h
    subst hp
    subst h
    exact hmem

theorem mem_alInsert {α β : Type} [DecidableEq α] {m : List (α × β)} {k : α}
    {v : β} {p : α × β} (h : p ∈ alInsert m k v) : p = (k, v) ∨ p ∈ m := by
  unfold alInsert at h
  rcases List.mem_cons.mp h with h1 | h1
  · exact Or.inl h1
  · exact Or.inr (List.mem_of_mem_filter h1)

theorem mem_alErase {α β : Type} [DecidableEq α] {m : List (α × β)} {k : α}
    {p : α × β} (h : p ∈ alErase m k) : p ∈ m :=
  List.mem_of_mem_filter h

theorem mem_listRemove {α : Type} [DecidableEq α] {l : List α} {x y : α}
    (h : y ∈ listRemove l x) : y ∈ l :=
  List.mem_of_mem_filter h

theorem mem_listInsert {α : Type} [DecidableEq α] {l : List α} {x y : α}
    (h : y ∈ listInsert l x) : y = x ∨ y ∈ l := by
  unfold listInsert at h
  split at h
  · exact Or.inr h
  · rcases List.mem_append.mp h with h1 | h1
    · exact Or.inr h1
    · simp at h1
      exact Or.inl h1

/-! ## Helper lemmas: address arithmetic -/

theorem log2_ROWS_PER_SUBARRAY : Nat.log2 ROWS_PER_SUBARRAY = 9 := by
  rw [Nat.log2_eq_log_two]
  exact Nat.log_pow (by norm_num) 9

theorem and_shiftLeft_shiftRight (x m k : Nat) :
    (x &&& (m <<< k)) >>> k = (x >>> k) &&& m := by
  apply Nat.eq_of_testBit_eq
  intro i
  simp only [Nat.testBit_shiftRight, Nat.testBit_and, Nat.testBit_shiftLeft]
  have h1 : k ≤ k + i := Nat.le_add_right k i
  simp [h1, Nat.add_sub_cancel_left]

theorem get_subarray_id_of_lt {a : Nat} (h : a < ROWS_PER_SUBARRAY) :
    get_subarray_id a = 0 := by
  unfold get_subarray_id
  rw [log2_ROWS_PER_SUBARRAY, Nat.shiftRight_eq_div_pow]
  apply Nat.div_eq_of_lt
  calc a &&& SUBARRAY_ID_BITMASK ≤ a := Nat.and_le_left
    _ < 2 ^ 9 := h

/-! ## Helper lemmas: the row-bound invariant through the compiler -/

theorem rowsBound_of_eq_fields {s t : CompilationState}
    (hf : t.freeRows = s.freeRows) (hv : t.valueStates = s.valueStates)
    (hp : t.program = s.program) (hb : rowsBound s) : rowsBound t := by
  unfold rowsBound
  rw [hf, hv, hp]
  exact hb

theorem foldl_preserve {α : Type} {P : CompilationState → Prop}
    {f : CompilationState → α → CompilationState}
    (hf : ∀ s x, P s → P (f s x)) :
    ∀ (l : List α) (s : CompilationState), P s → P (l.foldl f s)
  | [], s, hs => hs
  | x :: xs, s, hs => foldl_preserve hf xs (f s x) (hf s x hs)

theorem expandStep_rowsBound (net : Network) (s : CompilationState) (p : Nat)
    (hb : rowsBound s) : rowsBound (expandStep net s p) := by
  unfold expandStep
  dsimp only
  split
  · exact rowsBound_of_eq_fields rfl rfl rfl hb
  · exact hb

theorem retireStep_rowsBound (s : CompilationState) (g : Signal)
    (hb : rowsBound s) : rowsBound (retireStep s g) := by
  obtain ⟨hfree, hvs, hprog⟩ := hb
  unfold retireStep
  cases hl : alLookup s.valueStates g with
  | some r =>
    refine ⟨?_, ?_, hprog⟩
    · intro x hx
      rcases List.mem_cons.mp hx with h1 | h1
      · subst h1
        exact hvs _ (alLookup_mem hl)
      · exact hfree _ h1
    · intro p hp
      exact hvs _ (mem_alErase hp)
  | none =>
    refine ⟨hfree, ?_, hprog⟩
    intro p hp
    exact hvs _ (mem_alErase hp)

theorem preserveInput_rowsBound {net : Network} {s s1 : CompilationState}
    {g : Signal} (h : preserveInput net s g = .ok s1) (hb : rowsBound s) :
    rowsBound s1 := by
  obtain ⟨hfree, hvs, hprog⟩ := hb
  unfold preserveInput at h
  dsimp only at h
  split at h
  · cases hfr : s.freeRows with
    | nil => rw [hfr] at h; exact absurd h (by simp)
    | cons nf rest =>
      rw [hfr] at h
      cases hl : alLookup s.valueStates g with
      | none => rw [hl] at h; exact absurd h (by simp)
      | some rowAddr =>
        rw [hl] at h
        injection h with h
        subst h
        refine ⟨?_, hvs, ?_⟩
        · intro r hr
          exact hfree r (by rw [hfr]; exact List.mem_cons_of_mem _ hr)
        · intro i hi
          rcases List.mem_append.mp hi with h1 | h1
          · exact hprog i h1
          · simp at h1
            subst h1
            exact ⟨hvs _ (alLookup_mem hl), hfree nf (by rw [hfr]; exact List.mem_cons_self _ _)⟩
  · injection h with h
    subst h
    exact ⟨hfree, hvs, hprog⟩

theorem compute_rowsBound {net : Network} {s s1 : CompilationState} {id : Nat}
    {node : Mig} {oa : Option Nat}
    (h : CompilationState.compute net s id node oa = .ok s1)
    (hb : rowsBound s) : rowsBound s1 := by
  unfold CompilationState.compute at h
  dsimp only at h
  split at h
  · exact absurd h (by simp)
  · cases node with
    | fls => exact absurd h (by simp)
    | input k => exact absurd h (by simp)
    | maj g0 g1 g2 =>
      dsimp only at h
      have hb0 : rowsBound
          { s with candidates := listRemove s.candidates (id, Mig.maj g0 g1 g2) } :=
        rowsBound_of_eq_fields rfl rfl rfl hb
      cases h0 : alLookup s.valueStates g0 with
      | none => rw [h0] at h; exact absurd h (by simp)
      | some r0 =>
        cases h1 : alLookup s.valueStates g1 with
        | none => rw [h0, h1] at h; exact absurd h (by simp)
        | some r1 =>
          cases h2 : alLookup s.valueStates g2 with
          | none => rw [h0, h1, h2] at h; exact absurd h (by simp)
          | some r2 =>
            rw [h0, h1, h2] at h
            dsimp only at h
            cases hp0 : preserveInput net
                { s with candidates := listRemove s.candidates (id, Mig.maj g0 g1 g2) } g0 with
            | error e => rw [hp0] at h; exact absurd h (by simp)
            | ok t1 =>
              rw [hp0] at h
              dsimp only at h
              cases hp1 : preserveInput net t1 g1 with
              | error e => rw [hp1] at h; exact absurd h (by simp)
              | ok t2 =>
                rw [hp1] at h
                dsimp only at h
                cases hp2 : preserveInput net t2 g2 with
                | error e => rw [hp2] at h; exact absurd h (by simp)
                | ok t3 =>
                  rw [hp2] at h
                  dsimp only at h
                  injection h with h
                  subst h
                  have hb3 : rowsBound t3 :=
                    preserveInput_rowsBound hp2
                      (preserveInput_rowsBound hp1 (preserveInput_rowsBound hp0 hb0))
                  obtain ⟨hfree3, hvs3, hprog3⟩ := hb3
                  have hr0 : r0 < ROWS_PER_SUBARRAY := hb.2.1 _ (alLookup_mem h0)
                  have hr1 : r1 < ROWS_PER_SUBARRAY := hb.2.1 _ (alLookup_mem h1)
                  have hr2 : r2 < ROWS_PER_SUBARRAY := hb.2.1 _ (alLookup_mem h2)
                  apply foldl_preserve (expandStep_rowsBound net)
                  refine ⟨?_, ?_, ?_⟩
                  · intro r hr
                    rcases List.mem_cons.mp hr with hx | hx
                    · subst hx; exact hr2
                    rcases List.mem_cons.mp hx with hy | hy
                    · subst hy; exact hr1
                    · exact hfree3 _ hy
                  · intro p hp
                    rcases mem_alInsert hp with hx | hx
                    · subst hx; exact hr0
                    · exact hvs3 _ hx
                  · intro i hi
                    rcases List.mem_append.mp hi with hx | hx
                    · exact hprog3 _ hx
                    · simp at hx
                      subst hx
                      exact ⟨hr0, hr1, hr2⟩

theorem outputInvertStep_rowsBound {s s2 : CompilationState} {sig : Signal}
    (h : outputInvertStep s sig = .ok s2) (hb : rowsBound s) : rowsBound s2 := by
  obtain ⟨hfree, hvs, hprog⟩ := hb
  unfold outputInvertStep at h
  cases hfr : s.freeRows with
  | nil => rw [hfr] at h; exact absurd h (by simp)
  | cons backupRow fr =>
    rw [hfr] at h
    dsimp only at h
    cases hl : alLookup s.valueStates sig.invert with
    | none => rw [hl] at h; exact absurd h (by simp)
    | some origRow =>
      rw [hl] at h
      injection h with h
      subst h
      have hback : backupRow < ROWS_PER_SUBARRAY :=
        hfree backupRow (by rw [hfr]; exact List.mem_cons_self _ _)
      have horig : origRow < ROWS_PER_SUBARRAY := hvs _ (alLookup_mem hl)
      refine ⟨?_, ?_, ?_⟩
      · intro r hr
        exact hfree r (by rw [hfr]; exact List.mem_cons_of_mem _ hr)
      · intro p hp
        rcases mem_alInsert hp with hx | hx
        · subst hx; exact horig
        · exact hvs _ hx
      · intro i hi
        rcases List.mem_append.mp hi with hx | hx
        · exact hprog _ hx
        · rcases List.mem_cons.mp hx with hy | hy
          · subst hy; exact ⟨horig, hback⟩
          · simp at hy
            subst hy
            exact hback

theorem outputsPass_rowsBound {net : Network} {id : Nat} {node : Mig} :
    ∀ (l : List (Nat × Signal)) (s s1 : CompilationState),
      outputsPass net id node l s = .ok s1 → rowsBound s → rowsBound s1
  | [], s, s1, h, hb => by
    unfold outputsPass at h
    injection h with h
    subst h
    exact hb
  | (k, sig) :: rest, s, s1, h, hb => by
    unfold outputsPass at h
    split at h
    · exact outputsPass_rowsBound rest s s1 h hb
    · split at h
      · cases hi : outputInvertStep s sig with
        | error e => rw [hi] at h; exact absurd h (by simp)
        | ok t2 =>
          rw [hi] at h
          dsimp only at h
          cases hl : alLookup t2.valueStates sig with
          | none => rw [hl] at h; exact absurd h (by simp)
          | some r =>
            rw [hl] at h
            dsimp only at h
            cases hc : CompilationState.compute net t2 id node none with
            | error e => rw [hc] at h; exact absurd h (by simp)
            | ok t3 =>
              rw [hc] at h
              exact outputsPass_rowsBound rest t3 s1 h
                (compute_rowsBound hc (outputInvertStep_rowsBound hi hb))
      · cases hc : CompilationState.compute net s id node (some k) with
        | error e => rw [hc] at h; exact absurd h (by simp)
        | ok t3 =>
          rw [hc] at h
          exact outputsPass_rowsBound rest t3 s1 h (compute_rowsBound hc hb)

theorem loopIter_rowsBound {net : Network} {s s1 : CompilationState} {id : Nat}
    {node : Mig} (h : loopIter net s id node = .ok s1) (hb : rowsBound s) :
    rowsBound s1 := by
  unfold loopIter at h
  split at h
  · cases ho : outputsPass net id node net.outputs.enum s with
    | error e => rw [ho] at h; exact absurd h (by simp)
    | ok t1 =>
      rw [ho] at h
      dsimp only at h
      have hb1 : rowsBound t1 := outputsPass_rowsBound _ _ _ ho hb
      have hb3 : rowsBound { t1 with
          outputs := listRemove t1.outputs id,
          leftoverUseCount :=
            (lucGet net t1.leftoverUseCount (listRemove t1.outputs id) id).2 } :=
        rowsBound_of_eq_fields rfl rfl rfl hb1
      split at h
      · injection h with h
        subst h
        exact foldl_preserve (fun st g hbs => retireStep_rowsBound st g hbs) _ _ hb3
      · injection h with h
        subst h
        exact hb3
  · exact compute_rowsBound h hb

theorem runLoop_rowsBound {net : Network} :
    ∀ (fuel : Nat) (s s1 : CompilationState),
      runLoop net fuel s = .ok s1 → rowsBound s → rowsBound s1
  | 0, s, s1, h, _ => absurd h (by simp [runLoop])
  | fuel + 1, s, s1, h, hb => by
    unfold runLoop at h
    split at h
    · injection h with h
      subst h
      exact hb
    · rename_i id node heq
      cases hi : loopIter net s id node with
      | error e => rw [hi] at h; exact absurd h (by simp)
      | ok t1 =>
        rw [hi] at h
        exact runLoop_rowsBound fuel t1 s1 h (loopIter_rowsBound hi hb)

theorem initLeafs_bound {net : Network} {rF rT : Nat} :
    ∀ (ids : List Nat) (dram : List (Nat × RowState)) (vs : List (Signal × Nat))
      (free : List Nat) (dram1 : List (Nat × RowState)) (vs1 : List (Signal × Nat))
      (free1 : List Nat),
      initLeafs net rF rT ids dram vs free = .ok (dram1, vs1, free1) →
      (∀ p ∈ vs, p.2 < ROWS_PER_SUBARRAY) → (∀ r ∈ free, r < ROWS_PER_SUBARRAY) →
      rF < ROWS_PER_SUBARRAY → rT < ROWS_PER_SUBARRAY →
      (∀ p ∈ vs1, p.2 < ROWS_PER_SUBARRAY) ∧ (∀ r ∈ free1, r < ROWS_PER_SUBARRAY)
  | [], dram, vs, free, dram1, vs1, free1, h, hvs, hfree, hF, hT => by
    unfold initLeafs at h
    injection h with h
    injection h with h1 h
    injection h with h2 h3
    subst h2
    subst h3
    exact ⟨hvs, hfree⟩
  | id :: rest, dram, vs, free, dram1, vs1, free1, h, hvs, hfree, hF, hT => by
    unfold initLeafs at h
    cases hfr : free with
    | nil => rw [hfr] at h; exact absurd h (by simp)
    | cons nextRow free2 =>
      rw [hfr] at h
      dsimp only at h
      have hnext : nextRow < ROWS_PER_SUBARRAY :=
        hfree nextRow (by rw [hfr]; exact List.mem_cons_self _ _)
      have hfree2 : ∀ r ∈ free2, r < ROWS_PER_SUBARRAY := by
        intro r hr
        exact hfree r (by rw [hfr]; exact List.mem_cons_of_mem _ hr)
      cases hn : net.node id with
      | input k =>
        rw [hn] at h
        dsimp only at h
        cases hfr2 : free2 with
        | nil => rw [hfr2] at h; exact absurd h (by simp)
        | cons nextRow2 free3 =>
          rw [hfr2] at h
          dsimp only at h
          have hnext2 : nextRow2 < ROWS_PER_SUBARRAY :=
            hfree2 nextRow2 (by rw [hfr2]; exact List.mem_cons_self _ _)
          refine initLeafs_bound rest _ _ _ _ _ _ h ?_ ?_ hF hT
          · intro p hp
            rcases mem_alInsert hp with hx | hx
            · subst hx; exact hnext2
            rcases mem_alInsert hx with hy | hy
            · subst hy; exact hnext
            · exact hvs _ hy
          · intro r hr
            exact hfree2 r (by rw [hfr2]; exact List.mem_cons_of_mem _ hr)
      | fls =>
        rw [hn] at h
        dsimp only at h
        refine initLeafs_bound rest _ _ _ _ _ _ h ?_ hfree2 hF hT
        intro p hp
        rcases mem_alInsert hp with hx | hx
        · subst hx; exact hT
        rcases mem_alInsert hx with hy | hy
        · subst hy; exact hF
        · exact hvs _ hy
      | maj a b c => rw [hn] at h; exact absurd h (by simp)

theorem initState_rowsBound {net : Network} {s : CompilationState}
    (h : initState net = .ok s) : rowsBound s := by
  unfold initState at h
  cases hg : getInitStates net (List.range ROWS_PER_SUBARRAY).reverse with
  | error e => rw [hg] at h; exact absurd h (by simp)
  | ok triple =>
    rw [hg] at h
    obtain ⟨dram, vs, free⟩ := triple
    dsimp only at h
    injection h with h
    subst h
    unfold getInitStates at hg
    have hall : ∀ r ∈ (List.range ROWS_PER_SUBARRAY).reverse, r < ROWS_PER_SUBARRAY := by
      intro r hr
      exact List.mem_range.mp (List.mem_reverse.mp hr)
    cases hrv : (List.range ROWS_PER_SUBARRAY).reverse with
    | nil => rw [hrv] at hg; exact absurd hg (by simp)
    | cons rF rest1 =>
      rw [hrv] at hg
      dsimp only at hg
      cases hrest : rest1 with
      | nil => rw [hrest] at hg; exact absurd hg (by simp)
      | cons rT rest2 =>
        rw [hrest] at hg
        dsimp only at hg
        have hF : rF < ROWS_PER_SUBARRAY := hall rF (by rw [hrv]; exact List.mem_cons_self _ _)
        have hT : rT < ROWS_PER_SUBARRAY := by
          refine hall rT ?_
          rw [hrv, hrest]
          exact List.mem_cons_of_mem _ (List.mem_cons_self _ _)
        have hrest2 : ∀ r ∈ rest2, r < ROWS_PER_SUBARRAY := by
          intro r hr
          refine hall r ?_
          rw [hrv, hrest]
          exact List.mem_cons_of_mem _ (List.mem_cons_of_mem _ hr)
        have hres := initLeafs_bound net.leafs _ _ _ _ _ _ hg
          (by intro p hp; simp at hp) hrest2 hF hT
        exact ⟨hres.2, hres.1, by intro i hi; simp at hi⟩

/-! ## Helper lemma: foldl of componentwise cost addition -/

theorem foldl_cost_from (l : List CompilingCost) :
    ∀ c : CompilingCost, l.foldl (· + ·) c = c + l.foldl (· + ·) ⟨0, 0⟩ := by
  induction l with
  | nil =>
    intro c
    show c = c + ⟨0, 0⟩
    obtain ⟨r, e⟩ := c
    show (⟨r, e⟩ : CompilingCost) = ⟨r + 0, e + 0⟩
    simp
  | cons x xs ih =>
    intro c
    show xs.foldl (· + ·) (c + x) = c + xs.foldl (· + ·) (⟨0, 0⟩ + x)
    rw [ih (c + x), ih ((⟨0, 0⟩ : CompilingCost) + x)]
    obtain ⟨r1, e1⟩ := c
    obtain ⟨r2, e2⟩ := x
    obtain ⟨r3, e3⟩ := xs.foldl (· + ·) (⟨0, 0⟩ : CompilingCost)
    show (⟨r1 + r2 + r3, e1 + e2 + e3⟩ : CompilingCost) =
      ⟨r1 + (0 + r2 + r3), e1 + (0 + e2 + e3)⟩
    simp [Nat.add_assoc]

theorem foldl_costs_from (costs : Nat → CompilingCost) (l : List Nat) :
    ∀ c : CompilingCost,
      l.foldl (fun s i => s + costs i) c = c + l.foldl (fun s i => s + costs i) ⟨0, 0⟩ := by
  induction l with
  | nil =>
    intro c
    show c = c + ⟨0, 0⟩
    obtain ⟨r, e⟩ := c
    show (⟨r, e⟩ : CompilingCost) = ⟨r + 0, e + 0⟩
    simp
  | cons x xs ih =>
    intro c
    show xs.foldl (fun s i => s + costs i) (c + costs x) =
      c + xs.foldl (fun s i => s + costs i) (⟨0, 0⟩ + costs x)
    rw [ih (c + costs x), ih ((⟨0, 0⟩ : CompilingCost) + costs x)]
    obtain ⟨r1, e1⟩ := c
    obtain ⟨r2, e2⟩ := costs x
    obtain ⟨r3, e3⟩ := xs.foldl (fun s i => s + costs i) (⟨0, 0⟩ : CompilingCost)
    show (⟨r1 + r2 + r3, e1 + e2 + e3⟩ : CompilingCost) =
      ⟨r1 + (0 + r2 + r3), e1 + (0 + e2 + e3)⟩
    simp [Nat.add_assoc]

set_option maxRecDepth 1000000

/-! ## Claim theorems -/

/-- C7: TRA locality.  For every program returned by `compile`, every
emitted `AAPTRA(a, b, c)` instruction has all three operand rows in the
same subarray (`subarrayOf(a) = subarrayOf(b) = subarrayOf(c)`). -/
theorem c7_tra_locality (net : Network) (fuel : Nat) (p : Program)
    (h : compile net fuel = CompileOutcome.ok p) :
    ∀ a b c, Instruction.AAPTRA a b c ∈ p.instructions →
      get_subarray_id a = get_subarray_id b ∧
      get_subarray_id b = get_subarray_id c := by
  unfold compile at h
  cases hc : compileSt net fuel with
  | error e => rw [hc] at h; exact absurd h (by simp)
  | ok s =>
    rw [hc] at h
    injection h with h
    subst h
    unfold compileSt at hc
    cases hi : initState net with
    | error e => rw [hi] at hc; exact absurd hc (by simp)
    | ok s0 =>
      rw [hi] at hc
      have hb : rowsBound s := runLoop_rowsBound fuel s0 s hc (initState_rowsBound hi)
      intro a b c hmem
      have hinstr : (mkProgram s).instructions = s.program := rfl
      rw [hinstr] at hmem
      have hok : instructionRowsBound (Instruction.AAPTRA a b c) := hb.2.2 _ hmem
      obtain ⟨ha, hb2, hc2⟩ := hok
      rw [get_subarray_id_of_lt ha, get_subarray_id_of_lt hb2, get_subarray_id_of_lt hc2]
      exact ⟨rfl, rfl⟩

/-- Witness for C7: the single-MAJ network compiles to the one-TRA program
`[AAPTRA 509 507 505]`, whose operands share a subarray. -/
theorem c7_tra_locality_witness :
    get_subarray_id 509 = get_subarray_id 507 ∧
    get_subarray_id 507 = get_subarray_id 505 :=
  c7_tra_locality singleMajNet 5
    ⟨ARCHITECTURE, [Instruction.AAPTRA 509 507 505], 49, 150⟩
    (by decide) 509 507 505 (by simp)

/-- C8: the per-node cost function returns `none` exactly when the e-node
lists its own e-class id among its children; otherwise it returns
`some` of the node's opcost plus the sum of its children's costs. -/
theorem c8_cost_none_iff_self_cycle (costs : Nat → CompilingCost) (ecid : Nat)
    (enode : MigLanguage) :
    (costFunction costs ecid enode = none ↔ ecid ∈ enode.children) ∧
    costFunction costs ecid enode =
      (if ecid ∈ enode.children then none
       else some (opCost enode +
         (enode.children.map costs).foldl (· + ·) ⟨0, 0⟩)) := by
  unfold costFunction
  have hc : enode.children.contains ecid = true ↔ ecid ∈ enode.children := by
    simp
  by_cases h : ecid ∈ enode.children
  · constructor
    · simp [hc, h]
    · simp [hc, h]
  · constructor
    · simp [hc, h]
    · have hcf : enode.children.contains ecid = false := by
        rw [← Bool.not_eq_true, hc]
        exact h
      rw [hcf, if_neg h]
      simp only [Bool.false_eq_true, if_false]
      congr 1
      rw [List.foldl_map]
      exact foldl_costs_from costs enode.children (opCost enode)

/-- C9: address round-trip.  For `sub < S` and `local < R`, extracting the
subarray id from the packed address `(sub << log2 R) | local` yields
`sub`, and extracting the local row yields `local`. -/
theorem c9_address_roundtrip (sub localRow : Nat) (hs : sub < NR_SUBARRAYS)
    (hl : localRow < ROWS_PER_SUBARRAY) :
    get_subarray_id (packAddress sub localRow) = sub ∧
    displayed_local_row (packAddress sub localRow) = localRow := by
  have hs7 : sub < 2 ^ 7 := hs
  have hl9 : localRow < 2 ^ 9 := hl
  have hbound : sub * 2 ^ 9 < 2 ^ 64 := by
    have h9 : (2 : Nat) ^ 9 = 512 := by norm_num
    have h7 : (2 : Nat) ^ 7 = 128 := by norm_num
    have h64 : (2 : Nat) ^ 64 = 18446744073709551616 := by norm_num
    rw [h7] at hs7
    rw [h9, h64]
    omega
  have hpack : packAddress sub localRow = 2 ^ 9 * sub + localRow := by
    unfold packAddress subarrayid_to_subarray_address U64_SIZE
    rw [log2_ROWS_PER_SUBARRAY, Nat.shiftLeft_eq, Nat.mod_eq_of_lt hbound,
      Nat.mul_comm]
    exact (Nat.mul_add_lt_is_or hl9 sub).symm
  constructor
  · unfold get_subarray_id
    rw [hpack, log2_ROWS_PER_SUBARRAY]
    have hmask : SUBARRAY_ID_BITMASK = 127 <<< 9 := by
      norm_num [SUBARRAY_ID_BITMASK, Nat.shiftLeft_eq]
    rw [hmask, and_shiftLeft_shiftRight, Nat.shiftRight_eq_div_pow,
      Nat.mul_add_div (by norm_num), Nat.div_eq_of_lt hl9, Nat.add_zero]
    have h127 : (127 : Nat) = 2 ^ 7 - 1 := by norm_num
    rw [h127, Nat.and_pow_two_sub_one_eq_mod]
    exact Nat.mod_eq_of_lt hs7
  · unfold displayed_local_row
    rw [hpack]
    have h511 : ROW_ID_BITMASK = 2 ^ 9 - 1 := by norm_num [ROW_ID_BITMASK]
    rw [h511, Nat.and_pow_two_sub_one_eq_mod, Nat.add_comm,
      Nat.add_mul_mod_self_left]
    exact Nat.mod_eq_of_lt hl9

/-- Witness for C9 at `sub = 3`, `local = 5`. -/
theorem c9_address_roundtrip_witness :
    get_subarray_id (packAddress 3 5) = 3 ∧
    displayed_local_row (packAddress 3 5) = 5 :=
  c9_address_roundtrip 3 5 (by norm_num [NR_SUBARRAYS]) (by norm_num [ROWS_PER_SUBARRAY])

/-- C10: the row-address arithmetic reads only the global constants, never
the `PRADAArchitecture` value: for every architecture value and every
address, `get_subarray_id a = (a & SUBARRAY_ID_BITMASK) >> 9`, the rendered
local row is `a & 511`, reprojection to any subarray keeps the low 9 bits,
and the constants are fixed at `NR_SUBARRAYS = 128`, `ROWS_PER_SUBARRAY = 512`. -/
theorem c10_address_arithmetic_ignores_architecture
    (arch : PRADAArchitecture) (a sid : Nat) :
    get_subarray_id a = (a &&& SUBARRAY_ID_BITMASK) >>> 9 ∧
    displayed_local_row a = a &&& 511 ∧
    displayed_local_row (local_rowaddress_to_subarray_id a sid) =
      displayed_local_row a ∧
    NR_SUBARRAYS = 128 ∧ ROWS_PER_SUBARRAY = 512 := by
  refine ⟨?_, ?_, ?_, by norm_num [NR_SUBARRAYS], by norm_num [ROWS_PER_SUBARRAY]⟩
  · unfold get_subarray_id
    rw [log2_ROWS_PER_SUBARRAY]
  · rfl
  · unfold displayed_local_row local_rowaddress_to_subarray_id
      subarrayid_to_subarray_address U64_SIZE
    rw [log2_ROWS_PER_SUBARRAY, Nat.and_distrib_right]
    have hm : ((sid <<< 9) % 2 ^ 64) &&& ROW_ID_BITMASK = 0 := by
      have h511 : ROW_ID_BITMASK = 2 ^ 9 - 1 := by norm_num [ROW_ID_BITMASK]
      rw [h511, Nat.and_pow_two_sub_one_eq_mod,
        Nat.mod_mod_of_dvd _ (pow_dvd_pow 2 (by norm_num)), Nat.shiftLeft_eq]
      exact Nat.mul_mod_left sid (2 ^ 9)
    rw [hm, Nat.or_zero, Nat.and_assoc]
    have hrr : ROW_ID_BITMASK &&& ROW_ID_BITMASK = ROW_ID_BITMASK := by
      simp
    rw [hrr]

/-- C1: refuted by evaluation (code bug).  The single-MAJ network with
non-inverted primary output `Signal(4, false)` compiles successfully, but
the emitted program is just `[AAPTRA 509 507 505]`: no `ROWCOPY` into the
reserved output row 0 is ever emitted (`compute` ignores its
`out_address` argument), and the output value stays in row 509. -/
theorem c1_no_output_placement :
    compile singleMajNet 5 =
      CompileOutcome.ok
        { architecture := ARCHITECTURE,
          instructions := [Instruction.AAPTRA 509 507 505],
          runtime_estimate := 49,
          energy_consumption_estimate := 150 } ∧
    alLookup (finalStateOr singleMajNet 5).valueStates ⟨4, false⟩ = some 509 ∧
    ((finalStateOr singleMajNet 5).program.filter
      (fun i => match i with
        | Instruction.AAPRowCopy _ dst => dst == 0
        | _ => false)) = [] := by
  decide

/-- C2: refuted by evaluation (code bug).  Compiling the shared-input
network emits the preservation copy `AAPRowCopy 509 503` for input signal
`Signal(1, false)` (its producer has two consumers), but the compilation
state is never updated: no signal is mapped to the fresh row 503 and row
503 is absent from `dramState`. -/
theorem c2_preservation_copy_not_recorded :
    compileOk sharedInputNet 5 = true ∧
    Instruction.AAPRowCopy 509 503 ∈ (finalStateOr sharedInputNet 5).program ∧
    (finalStateOr sharedInputNet 5).valueStates.all (fun p => p.2 != 503) = true ∧
    alLookup (finalStateOr sharedInputNet 5).dramState 503 = none := by
  decide

/-- C3: refuted by evaluation (code bug).  After compiling the single-MAJ
network, `valueStates` still maps `Signal(2, false)` to row 507 although
row 507 was freed from `dramState` by the TRA, and still maps
`Signal(1, false)` to row 509 although row 509 now holds `Signal(4, false)`
as its live value: the claimed `valueStates`/`dramState` invariant is not
preserved by `CompilationState::compute`. -/
theorem c3_valuestates_invariant_broken :
    compileOk singleMajNet 5 = true ∧
    alLookup (finalStateOr singleMajNet 5).valueStates ⟨2, false⟩ = some 507 ∧
    alLookup (finalStateOr singleMajNet 5).dramState 507 = none ∧
    alLookup (finalStateOr singleMajNet 5).valueStates ⟨1, false⟩ = some 509 ∧
    alLookup (finalStateOr singleMajNet 5).dramState 509 =
      some ⟨false, some ⟨4, false⟩, none⟩ := by
  decide

/-- C4: refuted by evaluation (code bug).  After compiling the shared-input
network, `|dramState| + |freeRows| = 5 + 504 = 509`, not the 512 usable
rows of the home subarray (and no output rows were ever reserved): the
rows popped for the preservation copies (503, 502, 505) never enter
`dramState` and are lost from the accounting. -/
theorem c4_row_conservation_broken :
    compileOk sharedInputNet 5 = true ∧
    (finalStateOr sharedInputNet 5).dramState.length = 5 ∧
    (finalStateOr sharedInputNet 5).freeRows.length = 504 ∧
    (finalStateOr sharedInputNet 5).dramState.length +
      (finalStateOr sharedInputNet 5).freeRows.length ≠ ROWS_PER_SUBARRAY ∧
    (finalStateOr sharedInputNet 5).freeRows.contains 503 = false ∧
    ((finalStateOr sharedInputNet 5).dramState.map (fun p => p.1)).contains 503 =
      false := by
  decide

/-- C5 counterexample: a network with 256 primary inputs exhausts the
free pool during initialisation; `compile` aborts with the panic
message of the failed `expect`, and does not return a typed error value
through its `Result` error channel. -/
theorem c5_counterexample_exhaustion_panics :
    compile manyInputsNet 1 = CompileOutcome.panicked "No more free rows" ∧
    (compile manyInputsNet 1).isErrReturn = false := by
  decide

/-- C5 amended: every failure of `compile` is a panic (an aborting
`expect`/`panic!`), never a value of the `Result` error channel — the
source contains no `Err(..)` construction site, so the caller never
receives a typed error value. -/
theorem c5_failures_panic_not_typed_error (net : Network) (fuel : Nat) :
    (compile net fuel).isErrReturn = false := by
  unfold compile
  cases compileSt net fuel <;> rfl

/-- C6: refuted by evaluation (code bug).  After the single consumer
(node 4) of inputs 1, 2, 3 has compiled, `leftoverUseCount` still maps
node 1 and node 2 to 1 — no decrement ever happens — and node 1's row 508
(holding `Signal(1, true)`) is neither removed from `dramState` nor pushed
onto the free stack: the claimed retirement never runs. -/
theorem c6_use_count_never_decremented :
    compileOk singleMajNet 5 = true ∧
    alLookup (finalStateOr singleMajNet 5).leftoverUseCount 1 = some 1 ∧
    alLookup (finalStateOr singleMajNet 5).leftoverUseCount 2 = some 1 ∧
    alLookup (finalStateOr singleMajNet 5).dramState 508 =
      some ⟨false, some ⟨1, true⟩, none⟩ ∧
    (finalStateOr singleMajNet 5).freeRows.contains 508 = false := by
  decide
